import Mathlib

/-!
Verification development for the QE kinematics rejection sampler and its
adaptive maximum-cross-section estimator
(`src/Physics/QuasiElastic/EventGen/QELEventGenerator.cxx`).

Embedding conventions:
* `double` values are modelled by `ℚ`; transcendental or external
  computations (the nuclear-model throws, `CosTheta0Max`, the differential
  cross-section evaluator `ComputeFullQELPXSec`, the RNG draws, the
  rotation/boost geometry of the binding-energy correction, `CMEnergy`,
  `GetFermiMomentum`) are supplied as oracle inputs, one bundle per loop
  iteration, since they are external collaborators of the core under
  specification.
* The event record is abstracted to the number of particles committed to it;
  the `Kinematics` object of the interaction summary keeps its running and
  selected (locked) slots explicitly.
* The accept/reject `while(1)` loop of `ProcessEventRecord` becomes a
  fuel-based recursion whose fuel is the configured iteration cap
  (`kRjMaxIterations`); running out of fuel models the
  `EVGThreadException` thrown when `iter > kRjMaxIterations`.
-/

namespace QELGen

/-- The hit-nucleon binding-energy handling modes
(`genie::QELEvGen_BindingMode_t`, selected by the
`HitNucleonBindingMode` configuration key in `LoadConfig`). -/
inductive BindingMode
  | useNuclearModel
  | onShellWithCorrection
  | useGroundStateRemnant
deriving DecidableEq, Repr

/-- Kinematic variables of the interaction summary.  Modelled from the spec
(the `Kinematics` class itself is outside the given sources): each of Q2, W,
x, y has a running (provisional) slot and a selected (locked) slot;
`SetQ2(v, sel)` and friends write one slot, `ClearRunningValues` empties the
running slots only.  The magnitudes of the final-state lepton and
hadron-system four-momenta are kept as scalars. -/
structure Kine where
  runQ2 : Option ℚ
  runW : Option ℚ
  runx : Option ℚ
  runy : Option ℚ
  selQ2 : Option ℚ
  selW : Option ℚ
  selx : Option ℚ
  sely : Option ℚ
  fsLepP : Option ℚ
  hadSystP : Option ℚ
deriving DecidableEq, Repr

/-- A single mutation of the `Kinematics` object, as issued by the
finalization code of `ProcessEventRecord` (lines 391-395). -/
inductive KineOp
  | setQ2 (v : ℚ) (selected : Bool)
  | setW (v : ℚ) (selected : Bool)
  | setx (v : ℚ) (selected : Bool)
  | sety (v : ℚ) (selected : Bool)
  | clearRunning
deriving DecidableEq, Repr

/-- Effect of one `KineOp` on the kinematics object.  Modelled from the spec:
a selected write fills the locked slot, an unselected write fills the running
slot, and `ClearRunningValues` clears exactly the running slots. -/
def Kine.apply (k : Kine) : KineOp → Kine
  | .setQ2 v s => if s then { k with selQ2 := some v } else { k with runQ2 := some v }
  | .setW v s => if s then { k with selW := some v } else { k with runW := some v }
  | .setx v s => if s then { k with selx := some v } else { k with runx := some v }
  | .sety v s => if s then { k with sely := some v } else { k with runy := some v }
  | .clearRunning => { k with runQ2 := none, runW := none, runx := none, runy := none }

/-- `true` for the `ClearRunningValues` operation. -/
def KineOp.isClear : KineOp → Bool
  | .clearRunning => true
  | _ => false

/-- `true` for a write to a locked (selected) kinematic slot. -/
def KineOp.isLockWrite : KineOp → Bool
  | .setQ2 _ s => s
  | .setW _ s => s
  | .setx _ s => s
  | .sety _ s => s
  | .clearRunning => false

/-- The sequence of kinematics mutations issued on acceptance, in source
order (`SetQ2(gQ2,true); SetW(gW,true); Setx(gx,true); Sety(gy,true);
ClearRunningValues()`, QELEventGenerator.cxx lines 391-395). -/
def finalizeOps (gQ2 gW gx gy : ℚ) : List KineOp :=
  [.setQ2 gQ2 true, .setW gW true, .setx gx true, .sety gy true, .clearRunning]

/-- Kinematics state after the finalization sequence. -/
def lockKinematics (gQ2 gW gx gy : ℚ) (k : Kine) : Kine :=
  (finalizeOps gQ2 gW gx gy).foldl Kine.apply k

/-- Ordering property asserted by the specification sentence "running
kinematic values are cleared before locking final ones": every
`ClearRunningValues` in the operation sequence occurs before every locked
write. -/
def clearsPrecedeLocks (ops : List KineOp) : Prop :=
  ∀ i j : ℕ, (hi : i < ops.length) → (hj : j < ops.length) →
    (ops.get ⟨i, hi⟩).isClear = true → (ops.get ⟨j, hj⟩).isLockWrite = true →
    i < j

/-- The ordering the source actually implements: every locked write occurs
before every `ClearRunningValues`. -/
def locksPrecedeClears (ops : List KineOp) : Prop :=
  ∀ i j : ℕ, (hi : i < ops.length) → (hj : j < ops.length) →
    (ops.get ⟨i, hi⟩).isLockWrite = true → (ops.get ⟨j, hj⟩).isClear = true →
    i < j

/-- Modelled from the spec: `genie::utils::kinematics::WQ2toXY` (not among
the given sources) converts incident energy `E`, struck-nucleon mass `M`,
hadronic invariant mass `W` and squared momentum transfer `Q2` to the
Bjorken variables via the standard DIS-like relations
nu = (W^2 - M^2 + Q2) / (2 M), x = Q2 / (2 M nu), y = nu / E. -/
def WQ2toXY (E M W Q2 : ℚ) : ℚ × ℚ :=
  let nu := (W ^ 2 - M ^ 2 + Q2) / (2 * M)
  (Q2 / (2 * M * nu), nu / E)

/-- Per-interaction configuration and constants consumed by the
accept/reject loop (from `LoadConfig` and the interaction summary). -/
structure Params where
  /-- `UniformOverPhaseSpace` configuration flag. -/
  genUniformly : Bool
  /-- whether the target is a composite nucleus (`tgt->IsNucleus()`). -/
  isNucleus : Bool
  /-- `HitNucleonBindingMode` configuration value. -/
  bindingMode : BindingMode
  /-- `SF-MinAngleEMscattering` configuration value, in degrees. -/
  minAngleEM : ℚ
  /-- whether the process is electromagnetic (`ProcInfo().IsEM()`). -/
  isEM : Bool
  /-- lower edge of the interaction's allowed Q2 range (`Q2Lim().min`). -/
  q2min : ℚ
  /-- upper edge of the interaction's allowed Q2 range (`Q2Lim().max`). -/
  q2max : ℚ
  /-- local Fermi momentum returned by `PauliBlocker::GetFermiMomentum`. -/
  kF : ℚ
  /-- mass of the outgoing lepton (`FSPrimLepton()->Mass()`). -/
  lepMass : ℚ
  /-- on-shell mass of the recoil nucleon (`RecoilNucleon()->Mass()`). -/
  mNf : ℚ
  /-- on-shell mass of the recoil hadron selected through the exclusive tag
  (charm or strange hadron when tagged, recoil nucleon otherwise); this is
  the locked W value. -/
  gW : ℚ

/-- Oracle quantities consumed by the post-acceptance binding-energy
correction block (lines 231-351), one bundle per iteration. -/
structure CorrOracle where
  /-- `std::sqrt(s)` with `s = CMEnergy()^2` after the re-binding call. -/
  sqrtS : ℚ
  /-- `180 * lepton.Theta() / pi` of the corrected lepton after rotation
  and boost into the lab frame. -/
  labThetaDeg : ℚ
  /-- corrected squared momentum transfer `Q2 = -qP4.M2()`. -/
  q2 : ℚ
  /-- `outNucleon.P()`, the corrected (bound) recoil-nucleon momentum. -/
  pNfCorr : ℚ
  /-- momentum magnitude of the corrected outgoing lepton. -/
  lepP : ℚ
  /-- value written to `fEb` by the re-binding call with `kUseNuclearModel`. -/
  ebCorr : ℚ

/-- Oracle quantities consumed by one iteration of the accept/reject loop:
the nuclear-model throw, the kinematic-bounds calculator, the RNG draws and
the cross-section evaluator results for that iteration. -/
structure Trial where
  /-- value written to `fEb` by `BindHitNucleon` for this throw. -/
  eb : ℚ
  /-- `CosTheta0Max(*interaction)` for this throw (before the `min` with 1). -/
  cosTheta0Max : ℚ
  /-- cosine drawn uniformly in `[-1, cos_theta0_max]`. -/
  costh : ℚ
  /-- azimuthal angle drawn uniformly in `[0, 2 pi]`. -/
  phi : ℚ
  /-- `ComputeFullQELPXSec` result at this trial point. -/
  xsec : ℚ
  /-- running Q2 written into the kinematics by the evaluator call. -/
  runQ2 : ℚ
  /-- momentum magnitude of the running `HadSystP4` written by the evaluator
  (the uncorrected recoil-nucleon momentum). -/
  runHadP : ℚ
  /-- momentum magnitude of the running `FSLeptonP4` written by the evaluator. -/
  runLepP : ℚ
  /-- `Rndm()` draw used to build the acceptance threshold. -/
  u : ℚ
  /-- `ProbeE(kRfHitNucRest)` for the accepted nucleon state. -/
  probeE : ℚ
  /-- `HitNucP4().M()`, the (possibly off-shell) struck-nucleon mass. -/
  hitNucM : ℚ
  /-- oracle bundle for the binding-energy correction block. -/
  corr : CorrOracle

/-- Mutable state threaded through the accept/reject loop: the interaction
summary's kinematics, the generator's `fEb` member, the Pauli-blocker
one-shot override flag, the number of particles committed to the event
record, the `kKineGenErr` event flag and the recorded differential cross
section. -/
structure GenState where
  kine : Kine
  eb : ℚ
  pauliIgnore : Bool
  particles : ℕ
  kineGenErr : Bool
  diffXSec : Option ℚ
deriving DecidableEq, Repr

/-- The acceptance test of the rejection sampler (lines 218-224):
`t = xsec_max * Rndm(); accept = (t < xsec)`. -/
def acceptTest (xsecMax u xsec : ℚ) : Bool :=
  decide (xsecMax * u < xsec)

/-- Outcome of one iteration of the `while(1)` loop: `done` models the
`break` after committing the event, `next` models every `continue`. -/
inductive StepOut
  | done (st : GenState)
  | next (st : GenState)
deriving DecidableEq, Repr

/-- Finalization performed on acceptance after any correction pass (lines
353-419): read the running Q2, convert `(E, M, W, Q2)` to `(x, y)` via
`WQ2toXY`, lock the kinematics, clear the running values, record the
differential cross section, and commit the outgoing lepton, the recoil
nucleon and (for a composite target) the nucleus remnant to the event
record. -/
def finalize (p : Params) (t : Trial) (st : GenState) : GenState :=
  let gQ2 := st.kine.runQ2.getD 0
  let xy := WQ2toXY t.probeE t.hitNucM p.gW gQ2
  { st with
    kine := lockKinematics gQ2 p.gW xy.1 xy.2 st.kine,
    diffXSec := some t.xsec,
    particles := st.particles + 2 + (if p.isNucleus then 1 else 0) }

/-- One iteration of the accept/reject loop of `ProcessEventRecord`
(lines 177-423), after the iteration-cap check: sample and bind the hit
nucleon, test the angular window, evaluate the cross section, run the
acceptance test, and on acceptance run the binding-energy correction block
(with its re-validation and one-shot Pauli-blocking override) before
finalizing. -/
def loopStep (p : Params) (xsecMax : ℚ) (t : Trial) (st : GenState) : StepOut :=
  -- GenerateNucleon / SetMomentum3 + BindHitNucleon: update the struck
  -- nucleon state and fEb
  let st1 := { st with eb := t.eb }
  if min 1 t.cosTheta0Max ≤ -1 then .next st1
  else
    -- ComputeFullQELPXSec evaluates the trial point and writes the running
    -- kinematics (Q2 and the lepton / hadron-system four-momenta)
    let st2 := { st1 with
      kine := { st1.kine with
        runQ2 := some t.runQ2, fsLepP := some t.runLepP,
        hadSystP := some t.runHadP } }
    if acceptTest xsecMax t.u t.xsec then
      if p.isNucleus = true ∧ p.bindingMode = BindingMode.onShellWithCorrection then
        -- re-bind with kUseNuclearModel: updates fEb and the initial
        -- nucleon four-momentum
        let st3 := { st2 with eb := t.corr.ebCorr }
        if t.corr.sqrtS < p.lepMass + p.mNf then .next st3
        else
          let outLepE := (t.corr.sqrtS ^ 2 - p.mNf ^ 2 + p.lepMass ^ 2) / (2 * t.corr.sqrtS)
          if outLepE ^ 2 - p.lepMass ^ 2 < 0 then .next st3
          else if t.corr.labThetaDeg < p.minAngleEM ∧ p.isEM = true then .next st3
          else if t.corr.q2 < p.q2min ∨ p.q2max < t.corr.q2 then .next st3
          else
            let st4 := if t.corr.pNfCorr < p.kF ∧ p.kF ≤ t.runHadP
              then { st3 with pauliIgnore := true } else st3
            let st5 := { st4 with
              kine := { st4.kine with
                fsLepP := some t.corr.lepP, hadSystP := some t.corr.pNfCorr,
                runQ2 := some t.corr.q2 } }
            .done (finalize p t st5)
      else .done (finalize p t st2)
    else .next st2

/-- Result of the whole kinematic selection: success, or the
`EVGThreadException` with reason "Couldn't select kinematics" thrown once
`iter > kRjMaxIterations` (which also sets the `kKineGenErr` event flag and
aborts the current generation attempt).  `attempts` is the number of loop
iterations that were performed. -/
inductive LoopResult
  | success (st : GenState)
  | kinSelFail (attempts : ℕ) (st : GenState)
deriving DecidableEq, Repr

/-- The `while(1)` loop, as a recursion on the remaining iteration budget.
`iter` counts the iterations already performed; exhausting the budget models
`iter > kRjMaxIterations` and throws. -/
def processLoop (p : Params) (xsecMax : ℚ) (trials : ℕ → Trial) :
    ℕ → ℕ → GenState → LoopResult
  | 0, iter, st => .kinSelFail iter { st with kineGenErr := true }
  | fuel + 1, iter, st =>
    match loopStep p xsecMax (trials iter) st with
    | .done st1 => .success st1
    | .next st1 => processLoop p xsecMax trials fuel (iter + 1) st1

/-- Choice of the rejection bound (line 124): `-1` in uniform-phase-space
mode, otherwise the cached / computed maximum cross section. -/
def chooseXSecMax (uniform : Bool) (computed : ℚ) : ℚ :=
  if uniform then -1 else computed

/-- `ProcessEventRecord`, restricted to its kinematic-selection core:
choose the rejection bound, then run the accept/reject loop with the
configured iteration cap. -/
def processEventRecord (p : Params) (computedMax : ℚ) (trials : ℕ → Trial)
    (maxIter : ℕ) (st : GenState) : LoopResult :=
  processLoop p (chooseXSecMax p.genUniformly computedMax) trials maxIter 0 st

/-! ### The adaptive maximum-cross-section estimator (`ComputeMaxXSec`) -/

/-- One Phase-A nucleon throw: the nuclear-model momentum magnitude and
removal energy produced by `GenerateNucleon(tgt, 0.0)` (radius zero), and
the `CosTheta0Max` value obtained after binding the nucleon and pointing its
three-momentum along `-z`. -/
structure NucThrow where
  p : ℚ
  e : ℚ
  cosMax : ℚ
deriving DecidableEq, Repr

/-- Phase-A accumulator: running minimum removal energy, running maximum
momentum magnitude, and the `one_nucleon_ok` flag. -/
structure PhaseAAcc where
  minE : ℚ
  maxP : ℚ
  ok : Bool
deriving DecidableEq, Repr

/-- One Phase-A iteration (lines 572-606): throws with a non-degenerate
angular window (`cos_theta0_max > -1`) update the running extrema and set
`one_nucleon_ok`; the others are ignored. -/
def phaseAStep (acc : PhaseAAcc) (t : NucThrow) : PhaseAAcc :=
  if -1 < t.cosMax then
    { minE := min acc.minE t.e, maxP := max acc.maxP t.p, ok := true }
  else acc

/-- Phase A over a list of throws.  `hi` models
`std::numeric_limits<double>::max()`, the sentinel initial value of
`min_energy` (and, negated, of `max_momentum`). -/
def phaseA (hi : ℚ) (throws : List NucThrow) : PhaseAAcc :=
  throws.foldl phaseAStep { minE := hi, maxP := -hi, ok := false }

/-- The struck-nucleon state used by Phase B: three-momentum components and
removal energy, as installed via `SetMomentum3` / `SetRemovalEnergy`. -/
structure NucState where
  px : ℚ
  py : ℚ
  pz : ℚ
  eb : ℚ
deriving DecidableEq, Repr

/-- The extremal nucleon state Phase B fixes (lines 624-627): momentum
`(0, 0, -max_momentum)` (toward the probe) with the minimum removal
energy. -/
def phaseBNucleon (a : PhaseAAcc) : NucState :=
  { px := 0, py := 0, pz := -a.maxP, eb := a.minE }

/-- State of the Phase-B hierarchical angular scan: the current
`(cos theta, phi)` window and the running best grid point and value. -/
structure PhaseBState where
  cmin : ℚ
  cmax : ℚ
  pmin : ℚ
  pmax : ℚ
  cbest : ℚ
  pbest : ℚ
  best : ℚ
deriving DecidableEq, Repr

/-- The grid points visited by one scan layer (lines 652-655): for
`itheta, iphi` in `0..9`,
`(costh_range_min + itheta * inc, phi_range_min + iphi * inc)`. -/
def gridPoints (st : PhaseBState) : List (ℚ × ℚ) :=
  let dc := (st.cmax - st.cmin) / 10
  let dp := (st.pmax - st.pmin) / 10
  (List.range 10).flatMap fun i =>
    (List.range 10).map fun j =>
      (st.cmin + (i : ℚ) * dc, st.pmin + (j : ℚ) * dp)

/-- The record-update of the scan (lines 658-662): strictly larger values
replace the running best point. -/
def scanStep (xs : ℚ → ℚ → ℚ) (a : ℚ × ℚ × ℚ) (q : ℚ × ℚ) : ℚ × ℚ × ℚ :=
  if a.2.2 < xs q.1 q.2 then (q.1, q.2, xs q.1 q.2) else a

/-- The full grid scan of one layer: fold the record-update over the grid
points, starting from the carried-over best point and value. -/
def layerScan (xs : ℚ → ℚ → ℚ) (st : PhaseBState) : ℚ × ℚ × ℚ :=
  (gridPoints st).foldl (scanStep xs) (st.cbest, st.pbest, st.best)

/-- One refinement layer (lines 648-671): scan the 10 by 10 grid of the
current window, keeping the running best, then re-centre the window on the
best point with half-width equal to one grid step of this layer. -/
def layerStep (xs : ℚ → ℚ → ℚ) (st : PhaseBState) : PhaseBState :=
  let dc := (st.cmax - st.cmin) / 10
  let dp := (st.pmax - st.pmin) / 10
  let scanned := layerScan xs st
  { cmin := scanned.1 - dc, cmax := scanned.1 + dc,
    pmin := scanned.2.1 - dp, pmax := scanned.2.1 + dp,
    cbest := scanned.1, pbest := scanned.2.1, best := scanned.2.2 }

/-- The layer-termination criterion (lines 673-676): from the second layer
on, stop when `this_max / last_max - 1` falls below
`0.2 * (safety_factor - 1)`. -/
def layerStop (sf lastMax thisMax : ℚ) (ilayer : ℕ) : Prop :=
  ilayer ≠ 0 ∧ thisMax / lastMax - 1 < 1 / 5 * (sf - 1)

instance (sf lastMax thisMax : ℚ) (ilayer : ℕ) :
    Decidable (layerStop sf lastMax thisMax ilayer) := by
  unfold layerStop; infer_instance

/-- The layer loop of Phase B, as a recursion on the remaining layer budget;
returns the final scan state together with the number of layers executed. -/
def phaseBGo (xs : ℚ → ℚ → ℚ) (sf : ℚ) :
    ℕ → ℕ → PhaseBState → PhaseBState × ℕ
  | 0, ilayer, st => (st, ilayer)
  | fuel + 1, ilayer, st =>
    let st1 := layerStep xs st
    if layerStop sf st.best st1.best ilayer then (st1, ilayer + 1)
    else phaseBGo xs sf fuel (ilayer + 1) st1

/-- The initial Phase-B window (lines 637-646): full angular range with the
cosine upper edge clipped by `CosTheta0Max`, best value `-1`, best point
`(0, -1)`.  `twoPi` stands for the external constant `2 * TMath::Pi()`. -/
def phaseBInit (twoPi cosMax0 : ℚ) : PhaseBState :=
  { cmin := -1, cmax := min 1 cosMax0, pmin := 0, pmax := twoPi,
    cbest := 0, pbest := -1, best := -1 }

/-- Phase B with the fixed layer cap `max_n_layers = 100`. -/
def phaseB (xs : ℚ → ℚ → ℚ) (sf : ℚ) (st : PhaseBState) : PhaseBState × ℕ :=
  phaseBGo xs sf 100 0 st

/-- `ComputeMaxXSec` (lines 552-698).  `n` is the configured
`MaxXSecNucleonThrows`; `gen k` is the nucleon state produced by the k-th
`GenerateNucleon(tgt, 0.0)` call together with the resulting `CosTheta0Max`;
`xs nuc c f` is the `ComputeFullQELPXSec` value with the nucleon fixed at
`nuc`; `cosMax0` is the `CosTheta0Max` value of the Phase-B interaction;
`sf` is the safety factor.  If no throw yields a valid window, return 0;
otherwise run the angular refinement for the extremal nucleon, take the
better of the refined maximum and the initial `-1`, and apply the safety
factor. -/
def computeMaxXSec (hi twoPi : ℚ) (n : ℕ) (gen : ℕ → NucThrow)
    (xs : NucState → ℚ → ℚ → ℚ) (cosMax0 sf : ℚ) : ℚ :=
  let a := phaseA hi ((List.range n).map gen)
  if a.ok = false then 0
  else
    let best := (phaseB (xs (phaseBNucleon a)) sf (phaseBInit twoPi cosMax0)).1.best
    let xm : ℚ := -1
    (if xm < best then best else xm) * sf

/-! ### Concrete sample data used by the witness theorems -/

/-- An empty kinematics object (all slots unset). -/
def emptyKine : Kine :=
  { runQ2 := none, runW := none, runx := none, runy := none,
    selQ2 := none, selW := none, selx := none, sely := none,
    fsLepP := none, hadSystP := none }

/-- A fresh generator state at the start of kinematic selection. -/
def startState : GenState :=
  { kine := emptyKine, eb := 0, pauliIgnore := false, particles := 0,
    kineGenErr := false, diffXSec := none }

/-- A sample correction-oracle bundle that passes every re-validation check
of the binding-energy correction. -/
def sampleCorr : CorrOracle :=
  { sqrtS := 3, labThetaDeg := 90, q2 := 1, pNfCorr := 1, lepP := 1,
    ebCorr := 1 / 50 }

/-- A sample configuration using the plain nuclear-model binding mode. -/
def sampleParams : Params :=
  { genUniformly := false, isNucleus := true,
    bindingMode := BindingMode.useNuclearModel, minAngleEM := 0,
    isEM := false, q2min := 0, q2max := 10, kF := 2, lepMass := 1 / 10,
    mNf := 1, gW := 1 }

/-- The sample configuration switched to the on-shell-with-correction
binding mode. -/
def corrParams : Params :=
  { sampleParams with bindingMode := BindingMode.onShellWithCorrection }

/-- The sample configuration switched to uniform-phase-space mode. -/
def uniParams : Params :=
  { sampleParams with genUniformly := true }

/-- A sample trial with a non-degenerate angular window and a positive
cross-section value. -/
def sampleTrial : Trial :=
  { eb := 1 / 40, cosTheta0Max := 1 / 2, costh := 0, phi := 1, xsec := 3,
    runQ2 := 1, runHadP := 3, runLepP := 1, u := 1 / 2, probeE := 2,
    hitNucM := 1, corr := sampleCorr }

/-- A trial whose angular window is degenerate. -/
def degTrial : Trial :=
  { sampleTrial with cosTheta0Max := -2 }

/-- A trial whose binding-energy correction lands below the production
threshold. -/
def belowThresholdTrial : Trial :=
  { sampleTrial with corr := { sampleCorr with sqrtS := 0 } }

/-- A sample Phase-A nucleon throw with a valid angular window. -/
def genW : ℕ → NucThrow := fun _ => { p := 2, e := 3, cosMax := 0 }

/-- A sample cross-section evaluator, constant in its arguments. -/
def xsW1 : NucState → ℚ → ℚ → ℚ := fun _ _ _ => 1

/-- A second sample evaluator agreeing with `xsW1` on nucleon states with
`pz = -2` only. -/
def xsW2 : NucState → ℚ → ℚ → ℚ := fun nc _ _ => if nc.pz = -2 then 1 else 5

/-- A sample angular evaluator for the Phase-B witness, constant zero. -/
def xs0 : ℚ → ℚ → ℚ := fun _ _ => 0

/-- A sample Phase-B scan state with running best value 1. -/
def stW : PhaseBState :=
  { cmin := -1, cmax := 1, pmin := 0, pmax := 6, cbest := 0, pbest := -1,
    best := 1 }

/-! ### Helper lemmas -/

/-- A rejecting (`continue`) iteration commits no particles, locks no
kinematic variables and does not touch the error flag. -/
lemma loopStep_next_inv (p : Params) (xm : ℚ) (t : Trial) (st st1 : GenState)
    (h : loopStep p xm t st = .next st1) :
    st1.particles = st.particles ∧ st1.kine.selQ2 = st.kine.selQ2 ∧
    st1.kine.selW = st.kine.selW ∧ st1.kine.selx = st.kine.selx ∧
    st1.kine.sely = st.kine.sely ∧ st1.kineGenErr = st.kineGenErr := by
  simp only [loopStep] at h
  split_ifs at h <;>
    first
      | exact StepOut.noConfusion h
      | (injection h with h2; subst h2; simp)

lemma processLoop_no_accept (p : Params) (xm : ℚ) (trials : ℕ → Trial)
    (hna : ∀ i st st1, loopStep p xm (trials i) st ≠ .done st1) :
    ∀ (fuel iter : ℕ) (st : GenState),
    ∃ st1, processLoop p xm trials fuel iter st = .kinSelFail (iter + fuel) st1 ∧
      st1.particles = st.particles ∧ st1.kine.selQ2 = st.kine.selQ2 ∧
      st1.kine.selW = st.kine.selW ∧ st1.kine.selx = st.kine.selx ∧
      st1.kine.sely = st.kine.sely ∧ st1.kineGenErr = true := by
  intro fuel
  induction fuel with
  | zero =>
    intro iter st
    exact ⟨{ st with kineGenErr := true }, by simp [processLoop], rfl, rfl,
      rfl, rfl, rfl, rfl⟩
  | succ fuel ih =>
    intro iter st
    cases hstep : loopStep p xm (trials iter) st with
    | done st1 => exact absurd hstep (hna iter st st1)
    | next st1 =>
      obtain ⟨st2, hres, hp, h2, h3, h4, h5, h6⟩ := ih (iter + 1) st1
      obtain ⟨hp1, h21, h31, h41, h51, _⟩ :=
        loopStep_next_inv p xm (trials iter) st st1 hstep
      have hrun : processLoop p xm trials (fuel + 1) iter st =
          processLoop p xm trials fuel (iter + 1) st1 := by
        simp only [processLoop]; rw [hstep]
      have harith : iter + 1 + fuel = iter + (fuel + 1) := by omega
      rw [harith] at hres
      exact ⟨st2, by rw [hrun, hres], by rw [hp, hp1], by rw [h2, h21],
        by rw [h3, h31], by rw [h4, h41], by rw [h5, h51], h6⟩

lemma foldl_min_le_init (l : List ℚ) : ∀ a : ℚ, l.foldl min a ≤ a := by
  induction l with
  | nil => intro a; simp
  | cons x l ih =>
    intro a
    simp only [List.foldl_cons]
    exact le_trans (ih (min a x)) (min_le_left a x)

lemma foldl_min_le_mem (l : List ℚ) :
    ∀ (a x : ℚ), x ∈ l → l.foldl min a ≤ x := by
  induction l with
  | nil => intro a x hx; simp at hx
  | cons y l ih =>
    intro a x hx
    rcases List.mem_cons.mp hx with h | h
    · subst h
      exact le_trans (foldl_min_le_init l (min a x)) (min_le_right a x)
    · exact ih (min a y) x h

lemma le_foldl_max_init (l : List ℚ) : ∀ a : ℚ, a ≤ l.foldl max a := by
  induction l with
  | nil => intro a; simp
  | cons x l ih =>
    intro a
    simp only [List.foldl_cons]
    exact le_trans (le_max_left a x) (ih (max a x))

lemma mem_le_foldl_max (l : List ℚ) :
    ∀ (a x : ℚ), x ∈ l → x ≤ l.foldl max a := by
  induction l with
  | nil => intro a x hx; simp at hx
  | cons y l ih =>
    intro a x hx
    rcases List.mem_cons.mp hx with h | h
    · subst h
      exact le_trans (le_max_right a x) (le_foldl_max_init l (max a x))
    · exact ih (max a y) x h

lemma foldA_ok (l : List NucThrow) :
    ∀ acc : PhaseAAcc, (l.foldl phaseAStep acc).ok =
      (acc.ok || l.any fun t => decide (-1 < t.cosMax)) := by
  induction l with
  | nil => intro acc; simp
  | cons t l ih =>
    intro acc
    simp only [List.foldl_cons, List.any_cons]
    rw [ih]
    unfold phaseAStep
    by_cases h : -1 < t.cosMax
    · rw [if_pos h]; simp [h]
    · rw [if_neg h]; simp [h]

lemma foldA_minE (l : List NucThrow) :
    ∀ acc : PhaseAAcc, (l.foldl phaseAStep acc).minE =
      ((l.filter fun t => decide (-1 < t.cosMax)).map NucThrow.e).foldl
        min acc.minE := by
  induction l with
  | nil => intro acc; simp
  | cons t l ih =>
    intro acc
    simp only [List.foldl_cons]
    rw [ih]
    unfold phaseAStep
    by_cases h : -1 < t.cosMax
    · rw [if_pos h]
      simp [List.filter_cons, h]
    · rw [if_neg h]
      simp [List.filter_cons, h]

lemma foldA_maxP (l : List NucThrow) :
    ∀ acc : PhaseAAcc, (l.foldl phaseAStep acc).maxP =
      ((l.filter fun t => decide (-1 < t.cosMax)).map NucThrow.p).foldl
        max acc.maxP := by
  induction l with
  | nil => intro acc; simp
  | cons t l ih =>
    intro acc
    simp only [List.foldl_cons]
    rw [ih]
    unfold phaseAStep
    by_cases h : -1 < t.cosMax
    · rw [if_pos h]
      simp [List.filter_cons, h]
    · rw [if_neg h]
      simp [List.filter_cons, h]

lemma scanStep_best (xs : ℚ → ℚ → ℚ) (a : ℚ × ℚ × ℚ) (q : ℚ × ℚ) :
    (scanStep xs a q).2.2 = max a.2.2 (xs q.1 q.2) := by
  unfold scanStep
  by_cases h : a.2.2 < xs q.1 q.2
  · rw [if_pos h, max_eq_right (le_of_lt h)]
  · rw [if_neg h, max_eq_left (not_lt.mp h)]

lemma scan_best (xs : ℚ → ℚ → ℚ) (l : List (ℚ × ℚ)) :
    ∀ a : ℚ × ℚ × ℚ, (l.foldl (scanStep xs) a).2.2 =
      (l.map fun q => xs q.1 q.2).foldl max a.2.2 := by
  induction l with
  | nil => intro a; rfl
  | cons q l ih =>
    intro a
    simp only [List.foldl_cons, List.map_cons]
    rw [ih, scanStep_best]

lemma phaseBGo_layers_le (xs : ℚ → ℚ → ℚ) (sf : ℚ) :
    ∀ (fuel i : ℕ) (st : PhaseBState),
      (phaseBGo xs sf fuel i st).2 ≤ i + fuel := by
  intro fuel
  induction fuel with
  | zero => intro i st; simp [phaseBGo]
  | succ fuel ih =>
    intro i st
    simp only [phaseBGo]
    by_cases h : layerStop sf st.best (layerStep xs st).best i
    · rw [if_pos h]; omega
    · rw [if_neg h]
      have := ih (i + 1) (layerStep xs st)
      omega

/-! ### Claim theorems -/

/-- C1, counterexample: with bound 1, draw 1/2 and cross-section value 1/2,
the evaluated cross section is greater than or equal to the threshold
`t = 1 * (1/2)`, yet the sampler rejects — the claimed accept-iff-"xsec ≥ t"
rule is false on the code, whose test is strict (`accept = (t < xsec)`). -/
theorem accept_geq_rule_false :
    (1 : ℚ) * (1 / 2) ≤ (1 / 2 : ℚ) ∧ acceptTest 1 (1 / 2) (1 / 2) = false := by
  constructor
  · norm_num
  · simp only [acceptTest, decide_eq_false_iff_not]
    norm_num

/-- C1, amended: every iteration reaching the acceptance test draws the
threshold `t = xsec_max * u` from the RNG draw `u` (so `t` lies in
`(0, xsec_max]` for a unit-interval draw `u` in `(0,1]` and a positive
bound), and accepts the trial if and only if the evaluated cross section is
STRICTLY GREATER than `t`; in particular, outside the correction binding
mode a non-degenerate iteration commits if and only if the strict test
passes. -/
theorem accept_strict_rule (xm u xs : ℚ) (p : Params) (t : Trial)
    (st : GenState) :
    ((acceptTest xm u xs = true) ↔ xm * u < xs) ∧
    (0 < u → u ≤ 1 → 0 < xm → 0 < xm * u ∧ xm * u ≤ xm) ∧
    (¬(p.isNucleus = true ∧ p.bindingMode = BindingMode.onShellWithCorrection) →
      -1 < min 1 t.cosTheta0Max →
      ((∃ st1, loopStep p xm t st = .done st1) ↔
        acceptTest xm t.u t.xsec = true)) := by
  refine ⟨by simp [acceptTest], ?_, ?_⟩
  · intro hu hu1 hx
    refine ⟨mul_pos hx hu, ?_⟩
    nlinarith
  · intro hmode hcos
    simp only [loopStep, if_neg (not_le.mpr hcos), if_neg hmode]
    split_ifs with hacc
    · simp [hacc]
    · constructor
      · rintro ⟨st1, hc⟩
        exact hc.elim
      · intro hc
        exact absurd hc hacc

/-- C1, witness for `accept_strict_rule` at bound 2, draw 1/2,
cross-section 3, with the sample non-correction configuration. -/
theorem accept_strict_rule_witness :
    (acceptTest 2 (1 / 2) 3 = true ↔ (2 : ℚ) * (1 / 2) < 3) ∧
    (0 < (2 : ℚ) * (1 / 2) ∧ (2 : ℚ) * (1 / 2) ≤ 2) ∧
    ((∃ st1, loopStep sampleParams 2 sampleTrial startState = .done st1) ↔
      acceptTest 2 sampleTrial.u sampleTrial.xsec = true) := by
  obtain ⟨h1, h2, h3⟩ :=
    accept_strict_rule 2 (1 / 2) 3 sampleParams sampleTrial startState
  exact ⟨h1, h2 (by norm_num) (by norm_num) (by norm_num),
    h3 (by simp [sampleParams]) (by norm_num [sampleTrial, min_def])⟩

/-- C7: an iteration whose computed maximum allowed cosine
`min(1, CosTheta0Max)` is at most -1 skips to the next iteration, its only
state effect being the nucleon binding done before the check; the outcome
does not depend on the iteration's cross-section value, RNG threshold draw,
or any other field consumed after the degeneracy check, so the evaluator is
never consulted and the acceptance test never performed. -/
theorem degenerate_window_skips (p : Params) (xm : ℚ) (t : Trial)
    (st : GenState) (h : min 1 t.cosTheta0Max ≤ -1) :
    loopStep p xm t st = .next { st with eb := t.eb } ∧
    (∀ t1 : Trial, t1.cosTheta0Max = t.cosTheta0Max → t1.eb = t.eb →
      loopStep p xm t1 st = loopStep p xm t st) := by
  have hstep : loopStep p xm t st = .next { st with eb := t.eb } := by
    simp only [loopStep, if_pos h]
  refine ⟨hstep, fun t1 h1 h2 => ?_⟩
  have h1m : min 1 t1.cosTheta0Max ≤ -1 := by rw [h1]; exact h
  rw [hstep]
  simp only [loopStep, if_pos h1m, h2]

/-- C7, witness: a concrete degenerate trial is skipped. -/
theorem degenerate_window_skips_witness :
    loopStep sampleParams 1 degTrial startState =
      .next { startState with eb := degTrial.eb } :=
  (degenerate_window_skips sampleParams 1 degTrial startState
    (by norm_num [degTrial, min_def])).1

/-- C9, counterexample: in the finalization sequence actually issued on
acceptance, `ClearRunningValues` does NOT precede the locked writes — the
claimed order (running values cleared before the locked final values are
written) is false on the code, which locks first and clears afterwards. -/
theorem clear_before_lock_false :
    ¬ clearsPrecedeLocks (finalizeOps 0 0 0 0) := by
  intro hcl
  have h := hcl 4 0 (by norm_num [finalizeOps]) (by norm_num [finalizeOps])
    rfl rfl
  omega

/-- C9, amended: on every acceptance the sampler converts (E, M, W, Q²) to
(x, y) via the standard DIS-like relation `WQ2toXY` and writes the locked
Q², W, x, y values FIRST, clearing the provisional running values
AFTERWARDS (not before); since clearing touches only the running slots, the
finalized interaction holds exactly the locked kinematic set. -/
theorem lock_then_clear (gQ2 gW gx gy : ℚ) (p : Params) (t : Trial)
    (st : GenState) (k : Kine) :
    lockKinematics gQ2 gW gx gy k =
      { k with runQ2 := none, runW := none, runx := none, runy := none,
               selQ2 := some gQ2, selW := some gW, selx := some gx,
               sely := some gy } ∧
    locksPrecedeClears (finalizeOps gQ2 gW gx gy) ∧
    (finalize p t st).kine =
      lockKinematics (st.kine.runQ2.getD 0) p.gW
        (WQ2toXY t.probeE t.hitNucM p.gW (st.kine.runQ2.getD 0)).1
        (WQ2toXY t.probeE t.hitNucM p.gW (st.kine.runQ2.getD 0)).2
        st.kine := by
  refine ⟨rfl, ?_, rfl⟩
  intro i j hi hj hlock hclear
  simp only [finalizeOps, List.length_cons, List.length_nil] at hi hj
  have hj4 : j = 4 := by
    interval_cases j <;>
      simp_all [finalizeOps, KineOp.isClear, List.get]
  have hi4 : i < 4 := by
    by_contra hc
    have hi4e : i = 4 := by omega
    subst hi4e
    simp [finalizeOps, KineOp.isLockWrite, List.get] at hlock
  omega

/-- C10: in uniform-phase-space mode the rejection bound is never computed
(the bound is hard-set to -1 whatever the cached maximum would have been);
for a unit-interval draw `u` in (0,1] the threshold `-1 * u` is strictly
negative, so the acceptance test passes for every non-negative cross-section
value — including exactly zero — and every non-degenerate trial is
accepted. -/
theorem uniform_mode_accepts_all (m u : ℚ) (p : Params) (t : Trial)
    (st : GenState) :
    chooseXSecMax true m = -1 ∧
    (0 < u → u ≤ 1 → -1 * u < 0) ∧
    (0 < t.u → 0 ≤ t.xsec → acceptTest (-1) t.u t.xsec = true) ∧
    (p.genUniformly = true →
      ¬(p.isNucleus = true ∧ p.bindingMode = BindingMode.onShellWithCorrection) →
      -1 < min 1 t.cosTheta0Max → 0 < t.u → 0 ≤ t.xsec →
      ∃ st1, loopStep p (chooseXSecMax p.genUniformly m) t st = .done st1) := by
  have hthr : ∀ v : ℚ, 0 < v → -1 * v < 0 := by
    intro v hv; nlinarith
  have hacc : ∀ v w : ℚ, 0 < v → 0 ≤ w → acceptTest (-1) v w = true := by
    intro v w hv hw
    simp only [acceptTest, decide_eq_true_eq]
    exact lt_of_lt_of_le (hthr v hv) hw
  refine ⟨by simp [chooseXSecMax], fun hu _ => hthr u hu, hacc t.u t.xsec, ?_⟩
  intro hgu hmode hcos hu hx
  have hb : chooseXSecMax p.genUniformly m = -1 := by
    rw [hgu]; simp [chooseXSecMax]
  rw [hb]
  simp only [loopStep, if_neg (not_le.mpr hcos), if_neg hmode]
  split_ifs with h1
  · exact ⟨_, rfl⟩
  · exact absurd (hacc t.u t.xsec hu hx) h1

/-- C10, witness at the sample uniform configuration and sample trial. -/
theorem uniform_mode_accepts_all_witness :
    chooseXSecMax true 7 = -1 ∧
    (-1 : ℚ) * (1 / 2) < 0 ∧
    acceptTest (-1) sampleTrial.u sampleTrial.xsec = true ∧
    ∃ st1, loopStep uniParams (chooseXSecMax uniParams.genUniformly 7)
      sampleTrial startState = .done st1 := by
  obtain ⟨h1, h2, h3, h4⟩ :=
    uniform_mode_accepts_all 7 (1 / 2) uniParams sampleTrial startState
  exact ⟨h1, h2 (by norm_num) (by norm_num),
    h3 (by norm_num [sampleTrial]) (by norm_num [sampleTrial]),
    h4 rfl (by simp [uniParams, sampleParams])
      (by norm_num [sampleTrial, min_def]) (by norm_num [sampleTrial])
      (by norm_num [sampleTrial])⟩

/-- C2: if no iteration of the accept/reject loop ever accepts, the loop
performs exactly the configured maximum number of attempts and then raises
the kinematic-selection failure (the `EVGThreadException` with the
`kKineGenErr` event flag set, modelled by the `kinSelFail` result carrying
the attempt count); no final-state particles were added to the event record
and no kinematic variables were locked. -/
theorem iteration_cap_failure (p : Params) (xm : ℚ) (trials : ℕ → Trial)
    (maxIter : ℕ) (st0 : GenState)
    (hna : ∀ i st st1, loopStep p xm (trials i) st ≠ .done st1) :
    ∃ st1, processLoop p xm trials maxIter 0 st0 = .kinSelFail maxIter st1 ∧
      st1.particles = st0.particles ∧ st1.kine.selQ2 = st0.kine.selQ2 ∧
      st1.kine.selW = st0.kine.selW ∧ st1.kine.selx = st0.kine.selx ∧
      st1.kine.sely = st0.kine.sely ∧ st1.kineGenErr = true := by
  have h := processLoop_no_accept p xm trials hna maxIter 0 st0
  simpa using h

/-- C2, witness: with a trial stream that always has a degenerate window
(hence never accepts) and a cap of 5, the loop fails after exactly 5
attempts without committing particles or locking kinematics. -/
theorem iteration_cap_failure_witness :
    ∃ st1, processLoop sampleParams 1 (fun _ => degTrial) 5 0 startState =
      .kinSelFail 5 st1 ∧
      st1.particles = startState.particles ∧
      st1.kine.selQ2 = startState.kine.selQ2 ∧
      st1.kine.selW = startState.kine.selW ∧
      st1.kine.selx = startState.kine.selx ∧
      st1.kine.sely = startState.kine.sely ∧ st1.kineGenErr = true := by
  refine iteration_cap_failure sampleParams 1 (fun _ => degTrial) 5
    startState ?_
  intro i st st1 h
  have hd : min (1 : ℚ) degTrial.cosTheta0Max ≤ -1 := by
    norm_num [degTrial, min_def]
  simp only [loopStep, if_pos hd] at h
  exact StepOut.noConfusion h

/-- C3: under the on-shell-with-correction binding mode, an accepted trial
whose corrected kinematics land below the production threshold, below the
minimum EM angle for an electromagnetic process, or outside the allowed Q²
range is silently discarded: the iteration ends in a `continue` (re-entering
the rejection loop) with no kinematics locked, no particles committed, and
no error flag raised. -/
theorem correction_reject_restarts (p : Params) (xm : ℚ) (t : Trial)
    (st : GenState) (trials : ℕ → Trial) (fuel iter : ℕ)
    (hnuc : p.isNucleus = true)
    (hmode : p.bindingMode = BindingMode.onShellWithCorrection)
    (hacc : acceptTest xm t.u t.xsec = true)
    (hcos : -1 < min 1 t.cosTheta0Max)
    (hrej : t.corr.sqrtS < p.lepMass + p.mNf ∨
      (t.corr.labThetaDeg < p.minAngleEM ∧ p.isEM = true) ∨
      t.corr.q2 < p.q2min ∨ p.q2max < t.corr.q2)
    (htr : trials iter = t) :
    ∃ st1, loopStep p xm t st = .next st1 ∧
      st1.particles = st.particles ∧ st1.kine.selQ2 = st.kine.selQ2 ∧
      st1.kine.selW = st.kine.selW ∧ st1.kine.selx = st.kine.selx ∧
      st1.kine.sely = st.kine.sely ∧ st1.kineGenErr = st.kineGenErr ∧
      processLoop p xm trials (fuel + 1) iter st =
        processLoop p xm trials fuel (iter + 1) st1 := by
  have hstep : ∃ st1, loopStep p xm t st = .next st1 := by
    simp only [loopStep]
    rw [if_neg (not_le.mpr hcos), if_pos hacc,
      if_pos (And.intro hnuc hmode)]
    by_cases h1 : t.corr.sqrtS < p.lepMass + p.mNf
    · rw [if_pos h1]; exact ⟨_, rfl⟩
    · rw [if_neg h1]
      by_cases h2 : ((t.corr.sqrtS ^ 2 - p.mNf ^ 2 + p.lepMass ^ 2) /
          (2 * t.corr.sqrtS)) ^ 2 - p.lepMass ^ 2 < 0
      · rw [if_pos h2]; exact ⟨_, rfl⟩
      · rw [if_neg h2]
        by_cases h3 : t.corr.labThetaDeg < p.minAngleEM ∧ p.isEM = true
        · rw [if_pos h3]; exact ⟨_, rfl⟩
        · rw [if_neg h3]
          have h4 : t.corr.q2 < p.q2min ∨ p.q2max < t.corr.q2 := by
            rcases hrej with h | h | h | h
            · exact absurd h h1
            · exact absurd h h3
            · exact Or.inl h
            · exact Or.inr h
          rw [if_pos h4]
          exact ⟨_, rfl⟩
  obtain ⟨st1, hstep⟩ := hstep
  obtain ⟨hp, h2, h3, h4, h5, h6⟩ := loopStep_next_inv p xm t st st1 hstep
  refine ⟨st1, hstep, hp, h2, h3, h4, h5, h6, ?_⟩
  simp only [processLoop]
  rw [htr, hstep]

/-- C3, witness: a concrete accepted trial whose corrected center-of-mass
energy falls below the lepton-plus-nucleon threshold is discarded and the
loop moves on to the next iteration. -/
theorem correction_reject_restarts_witness :
    ∃ st1, loopStep corrParams 2 belowThresholdTrial startState =
        .next st1 ∧
      st1.particles = startState.particles ∧
      st1.kine.selQ2 = startState.kine.selQ2 ∧
      st1.kine.selW = startState.kine.selW ∧
      st1.kine.selx = startState.kine.selx ∧
      st1.kine.sely = startState.kine.sely ∧
      st1.kineGenErr = startState.kineGenErr ∧
      processLoop corrParams 2 (fun _ => belowThresholdTrial) (3 + 1) 0
          startState =
        processLoop corrParams 2 (fun _ => belowThresholdTrial) 3 (0 + 1)
          st1 := by
  refine correction_reject_restarts corrParams 2 belowThresholdTrial
    startState (fun _ => belowThresholdTrial) 3 0 rfl rfl ?_ ?_ ?_ rfl
  · simp only [acceptTest, decide_eq_true_eq]
    norm_num [belowThresholdTrial, sampleTrial]
  · norm_num [belowThresholdTrial, sampleTrial, min_def]
  · exact Or.inl (by
      norm_num [belowThresholdTrial, sampleTrial, sampleCorr, corrParams,
        sampleParams])

/-- C8: on acceptance under the on-shell-with-correction binding mode, once
the corrected kinematics pass every re-validation check, the one-shot
Pauli-blocking override (`SetIgnoreNext`) is issued if and only if the
corrected (bound) recoil-nucleon momentum is below the local Fermi momentum
while the uncorrected recoil-nucleon momentum is at or above it. -/
theorem pauli_override_iff (p : Params) (xm : ℚ) (t : Trial) (st : GenState)
    (hnuc : p.isNucleus = true)
    (hmode : p.bindingMode = BindingMode.onShellWithCorrection)
    (hcos : -1 < min 1 t.cosTheta0Max)
    (hacc : acceptTest xm t.u t.xsec = true)
    (hth : p.lepMass + p.mNf ≤ t.corr.sqrtS)
    (hel : 0 ≤ ((t.corr.sqrtS ^ 2 - p.mNf ^ 2 + p.lepMass ^ 2) /
      (2 * t.corr.sqrtS)) ^ 2 - p.lepMass ^ 2)
    (hang : ¬(t.corr.labThetaDeg < p.minAngleEM ∧ p.isEM = true))
    (hq2a : p.q2min ≤ t.corr.q2) (hq2b : t.corr.q2 ≤ p.q2max)
    (hpi : st.pauliIgnore = false) :
    ∃ st1, loopStep p xm t st = .done st1 ∧
      (st1.pauliIgnore = true ↔
        (t.corr.pNfCorr < p.kF ∧ p.kF ≤ t.runHadP)) := by
  simp only [loopStep]
  rw [if_neg (not_le.mpr hcos), if_pos hacc, if_pos (And.intro hnuc hmode),
    if_neg (not_lt.mpr hth), if_neg (not_lt.mpr hel), if_neg hang,
    if_neg (not_or.mpr ⟨not_lt.mpr hq2a, not_lt.mpr hq2b⟩)]
  by_cases hpc : t.corr.pNfCorr < p.kF ∧ p.kF ≤ t.runHadP
  · rw [if_pos hpc]
    refine ⟨_, rfl, ?_⟩
    simp [finalize, hpc]
  · rw [if_neg hpc]
    refine ⟨_, rfl, ?_⟩
    simp [finalize, hpc, hpi]

/-- C8, witness: a concrete accepted trial passing all re-validation checks,
whose corrected recoil momentum is Pauli-blocked while the uncorrected one
is not, issues the one-shot override. -/
theorem pauli_override_iff_witness :
    ∃ st1, loopStep corrParams 2 sampleTrial startState = .done st1 ∧
      (st1.pauliIgnore = true ↔
        (sampleTrial.corr.pNfCorr < corrParams.kF ∧
          corrParams.kF ≤ sampleTrial.runHadP)) := by
  refine pauli_override_iff corrParams 2 sampleTrial startState rfl rfl
    ?_ ?_ ?_ ?_ ?_ ?_ ?_ rfl
  · norm_num [sampleTrial, min_def]
  · simp only [acceptTest, decide_eq_true_eq]
    norm_num [sampleTrial]
  · norm_num [sampleTrial, sampleCorr, corrParams, sampleParams]
  · norm_num [sampleTrial, sampleCorr, corrParams, sampleParams]
  · norm_num [sampleTrial, sampleCorr, corrParams, sampleParams]
  · norm_num [sampleTrial, sampleCorr, corrParams, sampleParams]
  · norm_num [sampleTrial, sampleCorr, corrParams, sampleParams]

set_option maxRecDepth 4000 in
/-- C4: each Phase-B refinement layer evaluates the cross section on the
10 by 10 grid of the current window (100 points), its running best value
becomes the maximum of the previous best and the grid values, and the new
window is re-centred on the best point with half-width equal to one grid
step of the previous layer; the layer loop stops as soon as (from the
second layer on) the fractional improvement of the running maximum drops
below `0.2 * (safety_factor - 1)`, continues otherwise, and is capped at
100 layers. -/
theorem phaseB_grid_refinement (xs : ℚ → ℚ → ℚ) (sf : ℚ) (st : PhaseBState)
    (fuel i : ℕ) :
    (gridPoints st).length = 100 ∧
    (layerStep xs st).best =
      ((gridPoints st).map fun q => xs q.1 q.2).foldl max st.best ∧
    (layerStep xs st).cmin =
      (layerStep xs st).cbest - (st.cmax - st.cmin) / 10 ∧
    (layerStep xs st).cmax =
      (layerStep xs st).cbest + (st.cmax - st.cmin) / 10 ∧
    (layerStep xs st).pmin =
      (layerStep xs st).pbest - (st.pmax - st.pmin) / 10 ∧
    (layerStep xs st).pmax =
      (layerStep xs st).pbest + (st.pmax - st.pmin) / 10 ∧
    phaseB xs sf st = phaseBGo xs sf 100 0 st ∧
    (phaseBGo xs sf fuel i st).2 ≤ i + fuel ∧
    (layerStop sf st.best (layerStep xs st).best i →
      phaseBGo xs sf (fuel + 1) i st = (layerStep xs st, i + 1)) ∧
    (¬ layerStop sf st.best (layerStep xs st).best i →
      phaseBGo xs sf (fuel + 1) i st =
        phaseBGo xs sf fuel (i + 1) (layerStep xs st)) := by
  refine ⟨rfl, ?_, ?_, ?_, ?_, ?_, rfl, phaseBGo_layers_le xs sf fuel i st,
    ?_, ?_⟩
  · simp only [layerStep, layerScan]
    exact scan_best xs (gridPoints st) (st.cbest, st.pbest, st.best)
  · simp only [layerStep]
  · simp only [layerStep]
  · simp only [layerStep]
  · simp only [layerStep]
  · intro h
    simp only [phaseBGo]
    rw [if_pos h]
  · intro h
    simp only [phaseBGo]
    rw [if_neg h]

/-- C4, witness: at a concrete window whose running best value does not
improve, the improvement criterion fires at layer index 1 and the loop
returns right after that layer. -/
theorem phaseB_grid_refinement_witness :
    phaseBGo xs0 2 (0 + 1) 1 stW = (layerStep xs0 stW, 1 + 1) := by
  have hbest : (layerStep xs0 stW).best = 1 := by
    have h := (phaseB_grid_refinement xs0 2 stW 0 1).2.1
    rw [h]
    have hz : ∀ l : List (ℚ × ℚ), (l.map fun q => xs0 q.1 q.2).foldl max 1 = 1 := by
      intro l
      induction l with
      | nil => rfl
      | cons q l ih =>
        simp only [List.map_cons, List.foldl_cons, xs0]
        rw [max_eq_left (by norm_num : (0 : ℚ) ≤ 1)]
        exact ih
    exact hz (gridPoints stW)
  exact (phaseB_grid_refinement xs0 2 stW 0 1).2.2.2.2.2.2.2.2.1
    (by constructor
        · omega
        · rw [hbest]; norm_num [stW])

/-- C5: Phase A of the estimator tracks, over exactly the throws whose
angular window is non-degenerate (`CosTheta0Max > -1`), the minimum removal
energy and the maximum momentum magnitude (found a valid throw iff some
throw has `CosTheta0Max > -1`), and the Phase-B search depends on the
cross-section evaluator only through the extremal nucleon state — momentum
`(0, 0, -max_momentum)`, pointing at the probe, with the minimum removal
energy. -/
theorem phaseA_extrema (hi twoPi cosMax0 sf : ℚ) (n : ℕ)
    (gen : ℕ → NucThrow) (xs1 xs2 : NucState → ℚ → ℚ → ℚ) :
    (phaseA hi ((List.range n).map gen)).ok =
      ((List.range n).map gen).any (fun t => decide (-1 < t.cosMax)) ∧
    (phaseA hi ((List.range n).map gen)).minE =
      ((((List.range n).map gen).filter
        fun t => decide (-1 < t.cosMax)).map NucThrow.e).foldl min hi ∧
    (phaseA hi ((List.range n).map gen)).maxP =
      ((((List.range n).map gen).filter
        fun t => decide (-1 < t.cosMax)).map NucThrow.p).foldl max (-hi) ∧
    (∀ k, k < n → -1 < (gen k).cosMax →
      (phaseA hi ((List.range n).map gen)).minE ≤ (gen k).e ∧
      (gen k).p ≤ (phaseA hi ((List.range n).map gen)).maxP) ∧
    ((∀ c f, xs1 (phaseBNucleon (phaseA hi ((List.range n).map gen))) c f =
        xs2 (phaseBNucleon (phaseA hi ((List.range n).map gen))) c f) →
      computeMaxXSec hi twoPi n gen xs1 cosMax0 sf =
        computeMaxXSec hi twoPi n gen xs2 cosMax0 sf) := by
  have hminE := foldA_minE ((List.range n).map gen)
    { minE := hi, maxP := -hi, ok := false }
  have hmaxP := foldA_maxP ((List.range n).map gen)
    { minE := hi, maxP := -hi, ok := false }
  refine ⟨?_, hminE, hmaxP, ?_, ?_⟩
  · unfold phaseA
    rw [foldA_ok]
    simp
  · intro k hk hcos
    constructor
    · rw [show (phaseA hi ((List.range n).map gen)).minE = _ from hminE]
      refine foldl_min_le_mem _ hi (gen k).e ?_
      refine List.mem_map.mpr ⟨gen k, ?_, rfl⟩
      refine List.mem_filter.mpr ⟨?_, decide_eq_true hcos⟩
      exact List.mem_map.mpr ⟨k, List.mem_range.mpr hk, rfl⟩
    · rw [show (phaseA hi ((List.range n).map gen)).maxP = _ from hmaxP]
      refine mem_le_foldl_max _ (-hi) (gen k).p ?_
      refine List.mem_map.mpr ⟨gen k, ?_, rfl⟩
      refine List.mem_filter.mpr ⟨?_, decide_eq_true hcos⟩
      exact List.mem_map.mpr ⟨k, List.mem_range.mpr hk, rfl⟩
  · intro h
    have hfun : xs1 (phaseBNucleon (phaseA hi ((List.range n).map gen))) =
        xs2 (phaseBNucleon (phaseA hi ((List.range n).map gen))) :=
      funext fun c => funext fun f => h c f
    simp only [computeMaxXSec]
    rw [hfun]

/-- C5, witness: for a single valid throw with momentum 2 and removal
energy 3, the Phase-A extrema bound the throw, and two evaluators agreeing
at the extremal nucleon state give the same estimator result. -/
theorem phaseA_extrema_witness :
    ((phaseA 1000 ((List.range 1).map genW)).minE ≤ (genW 0).e ∧
      (genW 0).p ≤ (phaseA 1000 ((List.range 1).map genW)).maxP) ∧
    computeMaxXSec 1000 7 1 genW xsW1 3 (8 / 5) =
      computeMaxXSec 1000 7 1 genW xsW2 3 (8 / 5) := by
  obtain ⟨h1, h2, h3, h4, h5⟩ :=
    phaseA_extrema 1000 7 3 (8 / 5) 1 genW xsW1 xsW2
  refine ⟨h4 0 (by norm_num) (by norm_num [genW]), h5 ?_⟩
  intro c f
  norm_num [xsW1, xsW2, phaseBNucleon, phaseA, phaseAStep, genW, max_def,
    List.range_succ, List.range_zero]

/-- C6: if none of the Phase-A nucleon throws yields a non-degenerate
angular window, the estimator returns exactly 0 — for every possible
Phase-B evaluator and for every safety factor, so Phase B is never entered
and the safety factor is never applied; the zero is an ordinary return
value, not an error. -/
theorem estimator_zero_no_valid_throw (hi twoPi : ℚ) (n : ℕ)
    (gen : ℕ → NucThrow) (h : ∀ k, k < n → (gen k).cosMax ≤ -1) :
    ∀ (xs : NucState → ℚ → ℚ → ℚ) (cosMax0 sf : ℚ),
    computeMaxXSec hi twoPi n gen xs cosMax0 sf = 0 := by
  intro xs cosMax0 sf
  have hok : (phaseA hi ((List.range n).map gen)).ok = false := by
    unfold phaseA
    rw [foldA_ok]
    simp only [Bool.false_or, List.any_eq_false]
    intro t ht
    simp only [List.mem_map] at ht
    obtain ⟨k, hk, rfl⟩ := ht
    simp only [decide_eq_true_eq, not_lt]
    exact h k (List.mem_range.mp hk)
  simp only [computeMaxXSec]
  rw [if_pos hok]

/-- C6, witness: for throws whose `CosTheta0Max` is exactly the degenerate
boundary -1, the estimator returns 0. -/
theorem estimator_zero_no_valid_throw_witness :
    computeMaxXSec 1000 7 2 (fun _ => { p := 3, e := 2, cosMax := -1 })
      (fun _ _ _ => 5) 1 (8 / 5) = 0 :=
  estimator_zero_no_valid_throw 1000 7 2
    (fun _ => { p := 3, e := 2, cosMax := -1 })
    (fun _ _ => le_refl (-1)) (fun _ _ _ => 5) 1 (8 / 5)

end QELGen
